import Mathlib

/-!
Verification of the LanguageClient document-synchronization and RPC core.

The source under scrutiny is `rplugin/python3/LanguageClient/LanguageClient.py`.
Its helper modules `TextDocumentItem.py`, `RPC.py` and `util.py` are referenced
there but their code is not available; where a claim depends on them, the
corresponding definitions are modelled from the specification (each such
definition says so in its doc comment).

Texts are modelled as lists of characters; a document is split into lines that
keep their terminating newline character, so that joining the lines gives the
text back exactly.
-/

/-- A document text, as a list of characters. -/
abbrev Text := List Char

/-- Coerce a string literal into a `Text`. -/
def str (s : String) : Text := s.data

/-- Split a text into lines, each line keeping its trailing newline character
(the last line may lack one).  `splitLines (str "a\nb") = [str "a\n", str "b"]`. -/
def splitLines : Text → List Text
  | [] => []
  | c :: cs =>
    if c = '\n' then ['\n'] :: splitLines cs
    else
      match splitLines cs with
      | [] => [[c]]
      | l :: ls => (c :: l) :: ls

theorem join_splitLines (t : Text) : (splitLines t).flatten = t := by
  induction t with
  | nil => rfl
  | cons c cs ih =>
    by_cases h : c = '\n'
    · simp [splitLines, h, List.flatten]
      exact ih
    · simp only [splitLines, h, if_false]
      cases he : splitLines cs with
      | nil =>
        simp [List.flatten]
        rw [he] at ih
        simpa using ih.symm
      | cons l ls =>
        rw [he] at ih
        simp [List.flatten] at ih ⊢
        exact ih

theorem splitLines_ne_nil_of_ne_nil (t : Text) (h : t ≠ []) :
    splitLines t ≠ [] := by
  cases t with
  | nil => exact absurd rfl h
  | cons c cs =>
    by_cases hc : c = '\n'
    · simp [splitLines, hc]
    · simp only [splitLines, hc, if_false]
      cases he : splitLines cs with
      | nil => simp
      | cons l ls => simp

/-- Length of the longest common prefix of two lists. -/
def commonPrefixLen [DecidableEq α] : List α → List α → Nat
  | a :: as, b :: bs => if a = b then commonPrefixLen as bs + 1 else 0
  | _, _ => 0

theorem commonPrefixLen_le_left [DecidableEq α] (a b : List α) :
    commonPrefixLen a b ≤ a.length := by
  induction a generalizing b with
  | nil => simp [commonPrefixLen]
  | cons x xs ih =>
    cases b with
    | nil => simp [commonPrefixLen]
    | cons y ys =>
      by_cases h : x = y
      · simp [commonPrefixLen, h]
        exact ih ys
      · simp [commonPrefixLen, h]

theorem commonPrefixLen_le_right [DecidableEq α] (a b : List α) :
    commonPrefixLen a b ≤ b.length := by
  induction a generalizing b with
  | nil => simp [commonPrefixLen]
  | cons x xs ih =>
    cases b with
    | nil => simp [commonPrefixLen]
    | cons y ys =>
      by_cases h : x = y
      · simp [commonPrefixLen, h]
        exact ih ys
      · simp [commonPrefixLen, h]

theorem take_commonPrefixLen_eq [DecidableEq α] (a b : List α) :
    a.take (commonPrefixLen a b) = b.take (commonPrefixLen a b) := by
  induction a generalizing b with
  | nil => simp [commonPrefixLen]
  | cons x xs ih =>
    cases b with
    | nil => simp [commonPrefixLen]
    | cons y ys =>
      by_cases h : x = y
      · simp [commonPrefixLen, h, List.take]
        exact ih ys
      · simp [commonPrefixLen, h]

/-- Length of the longest common suffix of two lists. -/
def commonSuffixLen [DecidableEq α] (a b : List α) : Nat :=
  commonPrefixLen a.reverse b.reverse

theorem commonSuffixLen_le_left [DecidableEq α] (a b : List α) :
    commonSuffixLen a b ≤ a.length := by
  have := commonPrefixLen_le_left a.reverse b.reverse
  simpa [commonSuffixLen] using this

theorem commonSuffixLen_le_right [DecidableEq α] (a b : List α) :
    commonSuffixLen a b ≤ b.length := by
  have := commonPrefixLen_le_right a.reverse b.reverse
  simpa [commonSuffixLen] using this

theorem drop_commonSuffixLen_eq [DecidableEq α] (a b : List α) :
    a.drop (a.length - commonSuffixLen a b)
      = b.drop (b.length - commonSuffixLen a b) := by
  have h := take_commonPrefixLen_eq a.reverse b.reverse
  have ha : (a.reverse.take (commonSuffixLen a b)).reverse
      = a.drop (a.length - commonSuffixLen a b) := by
    rw [List.reverse_take]
    simp
  have hb : (b.reverse.take (commonSuffixLen a b)).reverse
      = b.drop (b.length - commonSuffixLen a b) := by
    rw [List.reverse_take]
    simp
  rw [← ha, ← hb, commonSuffixLen, h]

/-- A position in a document, zero-based line and character, as in the LSP
`{line, character}` objects built by the source. -/
structure Position where
  line : Nat
  character : Nat
deriving DecidableEq, Repr

/-- One element of the `contentChanges` array of a `didChange` payload.
`full newText` is the full-replacement form `{newText}`; `incr start stop
newText` is the incremental form `{range: {start, end}, newText}` (the `end`
field is called `stop` here because `end` is reserved). -/
inductive ChangeEvent where
  | full (newText : Text)
  | incr (start stop : Position) (newText : Text)
deriving DecidableEq, Repr

/-- Modelled from the spec: the Diff Engine's change computation
(`TextDocumentItem.change`, whose source file is not available).  Performs a
line-granularity diff: trim the common prefix lines and the common suffix
lines; the remaining contiguous block of changed lines becomes one incremental
ChangeEvent whose range runs from the start of the first changed line to the
end of the last changed line (the end position is the start of the first
retained suffix line, so the trailing newline of the last changed line is
included) and whose newText is the replacement lines joined; if there is no
common structure to exploit (empty previous text), fall back to a single
full-replacement ChangeEvent. -/
def computeChanges (old new : Text) : List ChangeEvent :=
  if old = [] then [ChangeEvent.full new]
  else
    let ol := splitLines old
    let nl := splitLines new
    let p := commonPrefixLen ol nl
    let s := commonSuffixLen (ol.drop p) (nl.drop p)
    [ChangeEvent.incr ⟨p, 0⟩ ⟨ol.length - s, 0⟩
      ((nl.drop p).take (nl.length - p - s)).flatten]

/-- Interpretation of an LSP position as a byte/character offset into a text:
the length of the first `line` lines plus `character`. -/
def posToOffset (t : Text) (pos : Position) : Nat :=
  ((splitLines t).take pos.line).flatten.length + pos.character

/-- Apply one ChangeEvent to a text: a full event replaces the whole text, an
incremental event splices its newText over the half-open offset range
denoted by its positions. -/
def applyEvent (t : Text) : ChangeEvent → Text
  | ChangeEvent.full nt => nt
  | ChangeEvent.incr a b nt =>
      t.take (posToOffset t a) ++ nt ++ t.drop (posToOffset t b)

/-- Apply a sequence of ChangeEvents in order. -/
def applyEvents (t : Text) (es : List ChangeEvent) : Text :=
  es.foldl applyEvent t

theorem flatten_take_prefix (l : List (List α)) (n : Nat) :
    l.flatten.take (l.take n).flatten.length = (l.take n).flatten :=
  calc l.flatten.take (l.take n).flatten.length
      = ((l.take n).flatten ++ (l.drop n).flatten).take (l.take n).flatten.length := by
        rw [← List.flatten_append, List.take_append_drop]
    _ = (l.take n).flatten := List.take_left _ _

theorem flatten_drop_suffix (l : List (List α)) (n : Nat) :
    l.flatten.drop (l.take n).flatten.length = (l.drop n).flatten :=
  calc l.flatten.drop (l.take n).flatten.length
      = ((l.take n).flatten ++ (l.drop n).flatten).drop (l.take n).flatten.length := by
        rw [← List.flatten_append, List.take_append_drop]
    _ = (l.drop n).flatten := List.drop_left _ _

theorem diff_reconstructs (old new : Text) :
    applyEvents old (computeChanges old new) = new := by
  by_cases h : old = []
  · simp [computeChanges, applyEvents, applyEvent, h]
  · rw [computeChanges, if_neg h]
    have hjo := join_splitLines old
    have hjn := join_splitLines new
    set ol := splitLines old with hol
    set nl := splitLines new with hnl
    set p := commonPrefixLen ol nl with hp
    set s := commonSuffixLen (ol.drop p) (nl.drop p) with hs
    have hple : p ≤ ol.length := commonPrefixLen_le_left ol nl
    have hpler : p ≤ nl.length := commonPrefixLen_le_right ol nl
    have hsle : s ≤ ol.length - p := by
      have := commonSuffixLen_le_left (ol.drop p) (nl.drop p)
      simpa using this
    have hsler : s ≤ nl.length - p := by
      have := commonSuffixLen_le_right (ol.drop p) (nl.drop p)
      simpa using this
    have htake : old.take ((ol.take p).flatten.length) = (ol.take p).flatten := by
      conv => lhs; rw [← hjo]
      exact flatten_take_prefix ol p
    have hdrop : old.drop ((ol.take (ol.length - s)).flatten.length)
        = (ol.drop (ol.length - s)).flatten := by
      conv => lhs; rw [← hjo]
      exact flatten_drop_suffix ol (ol.length - s)
    simp only [applyEvents, List.foldl, applyEvent, posToOffset]
    rw [← hol, ← hp, ← hs, Nat.add_zero, Nat.add_zero, htake, hdrop]
    have hpre : ol.take p = nl.take p := take_commonPrefixLen_eq ol nl
    have hsuf : ol.drop (ol.length - s) = nl.drop (nl.length - s) := by
      have hd := drop_commonSuffixLen_eq (ol.drop p) (nl.drop p)
      rw [List.length_drop, List.length_drop, List.drop_drop, List.drop_drop, ← hs] at hd
      have e1 : p + (ol.length - p - s) = ol.length - s := by omega
      have e2 : p + (nl.length - p - s) = nl.length - s := by omega
      rw [e1, e2] at hd
      exact hd
    rw [hpre, hsuf, ← hjn]
    rw [← List.flatten_append, ← List.flatten_append]
    congr 1
    have hmid : (nl.drop p).take (nl.length - p - s) ++ nl.drop (nl.length - s)
        = nl.drop p := by
      have hdd : nl.drop (nl.length - s) = (nl.drop p).drop (nl.length - p - s) := by
        rw [List.drop_drop]
        congr 1
        omega
      rw [hdd, List.take_append_drop]
    rw [List.append_assoc, hmid, List.take_append_drop]

theorem commonPrefixLen_append_ne [DecidableEq α] (xs : List α) (a b : α)
    (u v : List α) (h : a ≠ b) :
    commonPrefixLen (xs ++ a :: u) (xs ++ b :: v) = xs.length := by
  induction xs with
  | nil => simp [commonPrefixLen, h]
  | cons x xt ih => simp [commonPrefixLen, ih]

/-- A tracked document: `{uri, languageId, version, text}` as held in
`self.textDocuments`. -/
structure TextDocumentItem where
  uri : String
  languageId : String
  version : Nat
  text : Text
deriving DecidableEq, Repr

/-- Modelled from the spec: the `TextDocumentItem` constructor (source file
`TextDocumentItem.py` is not available) — a freshly opened document has
`version = 1`. -/
def TextDocumentItem.new (uri languageId : String) (text : Text) :
    TextDocumentItem :=
  ⟨uri, languageId, 1, text⟩

/-- Modelled from the spec: `TextDocumentItem.change` (the Diff Engine's
`applyChange`; source file not available).  Computes the ChangeEvents between
the stored text and the new full text, bumps `version` by exactly 1 and stores
the new text as the baseline in the same step, returning the updated document
together with the `(version, changeEvents)` pair the caller unpacks. -/
def TextDocumentItem.change (d : TextDocumentItem) (newText : Text) :
    TextDocumentItem × Nat × List ChangeEvent :=
  ({ d with version := d.version + 1, text := newText },
   d.version + 1,
   computeChanges d.text newText)

/-- Iterated `applyChange`: apply a list of successive full-text snapshots. -/
def applyChangeList (d : TextDocumentItem) : List Text → TextDocumentItem
  | [] => d
  | t :: ts => applyChangeList (d.change t).1 ts

theorem applyChangeList_version (d : TextDocumentItem) (ts : List Text) :
    (applyChangeList d ts).version = d.version + ts.length := by
  induction ts generalizing d with
  | nil => simp [applyChangeList]
  | cons t ts ih =>
    rw [applyChangeList, ih]
    simp [TextDocumentItem.change]
    omega

theorem singleLineEdit (d : TextDocumentItem) (newText : Text)
    (pre suf : List Text) (a b : Text)
    (hold : splitLines d.text = pre ++ a :: suf)
    (hnew : splitLines newText = pre ++ b :: suf)
    (hne : a ≠ b) :
    (d.change newText).2.2
      = [ChangeEvent.incr ⟨pre.length, 0⟩ ⟨pre.length + 1, 0⟩ b]
    ∧ (d.change newText).2.1 = d.version + 1 := by
  refine ⟨?_, rfl⟩
  have hnil : d.text ≠ [] := by
    intro hc
    rw [hc] at hold
    simp [splitLines] at hold
  show computeChanges d.text newText = _
  rw [computeChanges, if_neg hnil, hold, hnew]
  have hp : commonPrefixLen (pre ++ a :: suf) (pre ++ b :: suf) = pre.length :=
    commonPrefixLen_append_ne pre a b suf suf hne
  have hda : (pre ++ a :: suf).drop pre.length = a :: suf := List.drop_left pre _
  have hdb : (pre ++ b :: suf).drop pre.length = b :: suf := List.drop_left pre _
  have hsfx : commonSuffixLen (a :: suf) (b :: suf) = suf.length := by
    rw [commonSuffixLen]
    rw [List.reverse_cons, List.reverse_cons]
    have := commonPrefixLen_append_ne suf.reverse a b [] [] hne
    simpa using this
  simp only [hp, hda, hdb, hsfx]
  have hlen : (pre ++ a :: suf).length = pre.length + 1 + suf.length := by
    simp
    omega
  have hlenb : (pre ++ b :: suf).length = pre.length + 1 + suf.length := by
    simp
    omega
  rw [hlen, hlenb]
  have e1 : pre.length + 1 + suf.length - suf.length = pre.length + 1 := by omega
  have e2 : pre.length + 1 + suf.length - pre.length - suf.length = 1 := by omega
  rw [e1, e2]
  simp

/-- C1: For every pair (previousText, newText) of document texts, the ordered
sequence of ChangeEvents returned by applyChange (the Diff Engine's change
computation, invoked from textDocument_didChange), applied in order starting
from previousText, reconstructs exactly newText. -/
theorem C1_applyChange_reconstructs (d : TextDocumentItem) (newText : Text) :
    applyEvents d.text (d.change newText).2.2 = newText :=
  diff_reconstructs d.text newText

/-- C2: each successful applyChange increments version by exactly 1 and
replaces text with the new full snapshot in the same atomic step (the returned
version is the stored one), so after n successful applyChange calls
version = initial + n. -/
theorem C2_version_monotonic (d : TextDocumentItem) (nt : Text)
    (ts : List Text) :
    (d.change nt).1.version = d.version + 1
  ∧ (d.change nt).1.text = nt
  ∧ (d.change nt).2.1 = (d.change nt).1.version
  ∧ (applyChangeList d ts).version = d.version + ts.length :=
  ⟨rfl, rfl, rfl, applyChangeList_version d ts⟩

/-- C5: an applyChange whose new text differs from the stored text in a single
line produces exactly one incremental ChangeEvent whose range spans only that
line (from the start of the changed line to the start of the next line), not a
full-replacement event, and bumps the version by 1. -/
theorem C5_single_line_edit_minimal (d : TextDocumentItem) (newText : Text)
    (pre suf : List Text) (a b : Text)
    (hold : splitLines d.text = pre ++ a :: suf)
    (hnew : splitLines newText = pre ++ b :: suf)
    (hne : a ≠ b) :
    (d.change newText).2.2
      = [ChangeEvent.incr ⟨pre.length, 0⟩ ⟨pre.length + 1, 0⟩ b]
    ∧ (d.change newText).2.1 = d.version + 1 :=
  singleLineEdit d newText pre suf a b hold hnew hne

/-- Witness for C5: the spec scenario — a document opened with text "a\nb\n"
(version 1), changed to "a\nX\n", yields version 2 and a single incremental
ChangeEvent replacing line 2. -/
theorem C5_single_line_edit_minimal_witness :
    ((TextDocumentItem.new "file:///a.py" "python" (str "a\nb\n")).change
        (str "a\nX\n")).2.2
      = [ChangeEvent.incr ⟨1, 0⟩ ⟨2, 0⟩ (str "X\n")]
    ∧ ((TextDocumentItem.new "file:///a.py" "python" (str "a\nb\n")).change
        (str "a\nX\n")).2.1 = 2 := by
  have h := C5_single_line_edit_minimal
    (TextDocumentItem.new "file:///a.py" "python" (str "a\nb\n"))
    (str "a\nX\n") [str "a\n"] [] (str "b\n") (str "X\n")
    (by decide) (by decide) (by decide)
  exact ⟨h.1, h.2⟩

/-- JSON-like values, used for the parameter payloads the client builds. -/
inductive JVal where
  | null
  | bool (b : Bool)
  | num (n : Int)
  | str (s : String)
  | arr (xs : List JVal)
  | obj (fields : List (String × JVal))

/-- The LSP encoding of a Position. -/
def Position.toJVal (p : Position) : JVal :=
  JVal.obj [("line", JVal.num p.line), ("character", JVal.num p.character)]

/-- The LSP encoding of a ChangeEvent. -/
def ChangeEvent.toJVal : ChangeEvent → JVal
  | ChangeEvent.full nt => JVal.obj [("newText", JVal.str ⟨nt⟩)]
  | ChangeEvent.incr a b nt =>
      JVal.obj [("range", JVal.obj [("start", a.toJVal), ("end", b.toJVal)]),
                ("newText", JVal.str ⟨nt⟩)]

/-- The `__dict__` of a TextDocumentItem, as sent in didOpen. -/
def TextDocumentItem.toJVal (d : TextDocumentItem) : JVal :=
  JVal.obj [("uri", JVal.str d.uri), ("languageId", JVal.str d.languageId),
            ("version", JVal.num d.version), ("text", JVal.str ⟨d.text⟩)]

/-- An outbound protocol message: `rpc.call(method, params, cb)` or
`rpc.notify(method, params)`. -/
inductive RpcOut where
  | call (method : String) (params : JVal)
  | notify (method : String) (params : JVal)

/-- A Python exception value. -/
inductive PyErr where
  | keyError (key : String)
  | exc (message : String)
deriving DecidableEq, Repr

/-- The `self.textDocuments` dictionary: a uri-keyed association list. -/
abbrev Docs := List (String × TextDocumentItem)

/-- Dictionary read: the value stored at `uri`, if any. -/
def Docs.get? : Docs → String → Option TextDocumentItem
  | [], _ => none
  | (k, v) :: rest, uri => if k = uri then some v else Docs.get? rest uri

/-- Python dict assignment `d[uri] = item`: replace in place, or append. -/
def Docs.set : Docs → String → TextDocumentItem → Docs
  | [], uri, item => [(uri, item)]
  | (k, v) :: rest, uri, item =>
      if k = uri then (k, item) :: rest else (k, v) :: Docs.set rest uri item

/-- Python `del d[uri]`: remove the entry, or raise KeyError if absent. -/
def Docs.del : Docs → String → Except PyErr Docs
  | [], uri => Except.error (PyErr.keyError uri)
  | (k, v) :: rest, uri =>
      if k = uri then Except.ok rest
      else match Docs.del rest uri with
        | Except.ok rest2 => Except.ok ((k, v) :: rest2)
        | Except.error e => Except.error e

theorem get_set_self (docs : Docs) (uri : String) (item : TextDocumentItem) :
    (docs.set uri item).get? uri = some item := by
  induction docs with
  | nil => simp [Docs.set, Docs.get?]
  | cons kv rest ih =>
    obtain ⟨k, v⟩ := kv
    by_cases h : k = uri
    · simp [Docs.set, Docs.get?, h]
    · simp [Docs.set, Docs.get?, h, ih]

theorem del_error_of_absent (docs : Docs) (uri : String)
    (h : docs.get? uri = none) :
    docs.del uri = Except.error (PyErr.keyError uri) := by
  induction docs with
  | nil => simp [Docs.del]
  | cons kv rest ih =>
    obtain ⟨k, v⟩ := kv
    by_cases hk : k = uri
    · simp [Docs.get?, hk] at h
    · simp [Docs.get?, hk] at h
      simp [Docs.del, hk, ih h]

theorem del_ok_of_present (docs : Docs) (uri : String) (d : TextDocumentItem)
    (h : docs.get? uri = some d)
    (hnd : (docs.map Prod.fst).Nodup) :
    ∃ docs2, docs.del uri = Except.ok docs2 ∧ docs2.get? uri = none := by
  induction docs with
  | nil => simp [Docs.get?] at h
  | cons kv rest ih =>
    obtain ⟨k, v⟩ := kv
    rw [List.map_cons, List.nodup_cons] at hnd
    by_cases hk : k = uri
    · refine ⟨rest, by simp [Docs.del, hk], ?_⟩
      subst hk
      have : ∀ x ∈ rest.map Prod.fst, x ≠ k := by
        intro x hx hc
        exact hnd.1 (hc ▸ hx)
      clear ih h hnd
      induction rest with
      | nil => simp [Docs.get?]
      | cons kv2 rest2 ih2 =>
        obtain ⟨k2, v2⟩ := kv2
        have hk2 : k2 ≠ k := by
          have := this k2 (by simp)
          exact this
        simp [Docs.get?, hk2]
        exact ih2 (fun x hx => this x (by simp [hx]))
    · simp [Docs.get?, hk] at h
      obtain ⟨docs2, h1, h2⟩ := ih h hnd.2
      exact ⟨(k, v) :: docs2, by simp [Docs.del, hk, h1], by simp [Docs.get?, hk, h2]⟩

/-- The language-server subprocess handle: `poll()` returns the exit code once
the process has exited, `None` while it is running. -/
structure ServerProc where
  exitCode : Option Int
deriving DecidableEq, Repr

/-- Embedding of `alive`: false when `self.server is None` or
`self.server.poll() is not None`, true otherwise. -/
def alive (server : Option ServerProc) : Bool :=
  match server with
  | none => false
  | some s => s.exitCode.isNone

/-- Embedding of `textDocument_didClose`: after the `alive()` guard, looks up
the uri, performs `del self.textDocuments[uri]` (raising KeyError when the uri
is not tracked) and sends the didClose notification. -/
def textDocument_didClose (server : Option ServerProc) (docs : Docs)
    (uri : String) : Except PyErr (Docs × Option RpcOut) :=
  if !alive server then Except.ok (docs, none)
  else
    match docs.del uri with
    | Except.error e => Except.error e
    | Except.ok docs2 =>
        Except.ok (docs2, some (RpcOut.notify "textDocument/didClose"
          (JVal.obj [("textDocument", JVal.obj [("uri", JVal.str uri)])])))

/-- Embedding of `textDocument_didOpen`: after the `alive(warn=False)` guard
and the filetype guard, builds a fresh TextDocumentItem, stores it with
`self.textDocuments[uri] = item` (a plain dict assignment that overwrites any
existing entry) and sends the didOpen notification. -/
def textDocument_didOpen (server : Option ServerProc)
    (serverCommands : List String) (languageId uri : String) (text : Text)
    (docs : Docs) : Docs × Option RpcOut :=
  if !alive server then (docs, none)
  else if languageId = "" ∨ languageId ∉ serverCommands then (docs, none)
  else
    let item := TextDocumentItem.new uri languageId text
    (docs.set uri item,
     some (RpcOut.notify "textDocument/didOpen"
       (JVal.obj [("textDocument",
         JVal.obj [("textDocument", item.toJVal)])])))

/-- Embedding of `textDocument_didChange`: after the `alive(warn=False)` guard,
returns immediately when the buffer's uri is not tracked; otherwise runs the
Diff Engine's change on the stored document and sends the didChange
notification carrying the bumped version and the computed ChangeEvents. -/
def textDocument_didChange (server : Option ServerProc) (docs : Docs)
    (uri : String) (newText : Text) : Docs × Option RpcOut :=
  if !alive server then (docs, none)
  else
    match docs.get? uri with
    | none => (docs, none)
    | some d =>
        let r := d.change newText
        (docs.set uri r.1,
         some (RpcOut.notify "textDocument/didChange"
           (JVal.obj [("textDocument",
               JVal.obj [("uri", JVal.str uri), ("version", JVal.num r.2.1)]),
             ("contentChanges", JVal.arr (r.2.2.map ChangeEvent.toJVal))])))

/-- Embedding of the `initialize` request function (`LanguageClient_initialize`;
the Lean name differs because the source name is reserved here).  After the
`alive()` guard it issues `rpc.call('initialize', {processId, rootPath,
rootUri, capabilities, trace}, cb)`.  `pid` is `os.getpid()` and `pathToURI`
the uri conversion from the unavailable `util.py`. -/
def initRequest (server : Option ServerProc) (docs : Docs) (pid : Int)
    (rootPath : String) (pathToURI : String → String) : Docs × Option RpcOut :=
  if !alive server then (docs, none)
  else
    (docs, some (RpcOut.call "initialize" (JVal.obj [
      ("processId", JVal.num pid),
      ("rootPath", JVal.str rootPath),
      ("rootUri", JVal.str (pathToURI rootPath)),
      ("capabilities", JVal.obj []),
      ("trace", JVal.str "verbose")])))

/-- Embedding of `textDocument_hover`: after the `alive()` guard it issues
`rpc.call('textDocument/hover', {textDocument, position}, cb)`. -/
def textDocument_hover (server : Option ServerProc) (docs : Docs)
    (uri : String) (line character : Int) : Docs × Option RpcOut :=
  if !alive server then (docs, none)
  else
    (docs, some (RpcOut.call "textDocument/hover" (JVal.obj [
      ("textDocument", JVal.obj [("uri", JVal.str uri)]),
      ("position", JVal.obj [("line", JVal.num line),
                             ("character", JVal.num character)])])))

/-- Embedding of `textDocument_definition`: after the `alive()` guard it issues
`rpc.call('textDocument/definition', {textDocument, position}, cb)`. -/
def textDocument_definition (server : Option ServerProc) (docs : Docs)
    (uri : String) (line character : Int) : Docs × Option RpcOut :=
  if !alive server then (docs, none)
  else
    (docs, some (RpcOut.call "textDocument/definition" (JVal.obj [
      ("textDocument", JVal.obj [("uri", JVal.str uri)]),
      ("position", JVal.obj [("line", JVal.num line),
                             ("character", JVal.num character)])])))

/-- Embedding of `textDocument_rename`: after the `alive()` guard it resolves
`newName` (prompting the user — `inputResult` — when absent) and issues
`rpc.call('textDocument/rename', {textDocument, position, newName}, cb)`. -/
def textDocument_rename (server : Option ServerProc) (docs : Docs)
    (uri : String) (line character : Int) (newName : Option String)
    (inputResult : String) : Docs × Option RpcOut :=
  if !alive server then (docs, none)
  else
    let nn := match newName with
      | none => inputResult
      | some s => s
    (docs, some (RpcOut.call "textDocument/rename" (JVal.obj [
      ("textDocument", JVal.obj [("uri", JVal.str uri)]),
      ("position", JVal.obj [("line", JVal.num line),
                             ("character", JVal.num character)]),
      ("newName", JVal.str nn)])))

/-- Embedding of `textDocument_documentSymbol`: after the `alive()` guard it
issues `rpc.call('textDocument/documentSymbol', {textDocument}, cb)` (the
callback selection depending on FZF does not affect the message). -/
def textDocument_documentSymbol (server : Option ServerProc) (docs : Docs)
    (uri : String) : Docs × Option RpcOut :=
  if !alive server then (docs, none)
  else
    (docs, some (RpcOut.call "textDocument/documentSymbol" (JVal.obj [
      ("textDocument", JVal.obj [("uri", JVal.str uri)])])))

/-- Embedding of `workspace_symbol`: after the `alive()` guard it issues
`rpc.call('workspace/symbol', {query}, cb)`. -/
def workspace_symbol (server : Option ServerProc) (docs : Docs)
    (query : Option String) : Docs × Option RpcOut :=
  if !alive server then (docs, none)
  else
    (docs, some (RpcOut.call "workspace/symbol" (JVal.obj [
      ("query", match query with
        | none => JVal.null
        | some q => JVal.str q)])))

/-- Embedding of `textDocument_completion`: returns `[]` when the `alive()`
guard fails, otherwise issues the blocking
`rpc.call('textDocument/completion', {textDocument, position})` and returns
the server's reply (`serverResult`). -/
def textDocument_completion (server : Option ServerProc) (docs : Docs)
    (uri : String) (line character : Int) (serverResult : List JVal) :
    Docs × List JVal × Option RpcOut :=
  if !alive server then (docs, [], none)
  else
    (docs, serverResult, some (RpcOut.call "textDocument/completion" (JVal.obj [
      ("textDocument", JVal.obj [("uri", JVal.str uri)]),
      ("position", JVal.obj [("line", JVal.num line),
                             ("character", JVal.num character)])])))

/-- Embedding of `exit` (`LanguageClient_exit`): after the `alive()` guard it
issues `rpc.notify('exit', {})`. -/
def lcExit (server : Option ServerProc) (docs : Docs) : Docs × Option RpcOut :=
  if !alive server then (docs, none)
  else (docs, some (RpcOut.notify "exit" (JVal.obj [])))

/-- C3 counterexample: closing an untracked uri raises KeyError (the claim
said it fails silently rather than raising). -/
theorem C3_close_counterexample :
    textDocument_didClose (some ⟨none⟩) [] "file:///a.py"
      = Except.error (PyErr.keyError "file:///a.py") := rfl

/-- C3 (amended): with the client alive, close(uri) removes the tracked
Document and sends the didClose notification when uri is tracked; when uri is
not tracked, the deletion raises KeyError (it does not fail silently). -/
theorem C3_close_removes_or_raises (server : Option ServerProc) (docs : Docs)
    (uri : String) (halive : alive server = true)
    (hnd : (docs.map Prod.fst).Nodup) :
    (∀ d, docs.get? uri = some d →
      ∃ docs2, textDocument_didClose server docs uri
          = Except.ok (docs2, some (RpcOut.notify "textDocument/didClose"
              (JVal.obj [("textDocument",
                JVal.obj [("uri", JVal.str uri)])])))
        ∧ docs2.get? uri = none)
  ∧ (docs.get? uri = none →
      textDocument_didClose server docs uri
        = Except.error (PyErr.keyError uri)) := by
  constructor
  · intro d hd
    obtain ⟨docs2, h1, h2⟩ := del_ok_of_present docs uri d hd hnd
    exact ⟨docs2, by simp [textDocument_didClose, halive, h1], h2⟩
  · intro hn
    simp [textDocument_didClose, halive, del_error_of_absent docs uri hn]

/-- Witness for C3: closing a tracked document removes it and notifies. -/
theorem C3_close_removes_or_raises_witness :
    ∃ docs2, textDocument_didClose (some ⟨none⟩)
        [("file:///a.py", TextDocumentItem.new "file:///a.py" "python" (str "a\n"))]
        "file:///a.py"
      = Except.ok (docs2, some (RpcOut.notify "textDocument/didClose"
          (JVal.obj [("textDocument",
            JVal.obj [("uri", JVal.str "file:///a.py")])])))
      ∧ docs2.get? "file:///a.py" = none :=
  (C3_close_removes_or_raises (some ⟨none⟩)
      [("file:///a.py", TextDocumentItem.new "file:///a.py" "python" (str "a\n"))]
      "file:///a.py" rfl (by simp)).1
    (TextDocumentItem.new "file:///a.py" "python" (str "a\n"))
    (by simp [Docs.get?])

/-- C4 counterexample: opening a uri already tracked (here at version 5)
overwrites the existing entry with a fresh version-1 document and still sends
the didOpen notification; there is no AlreadyOpen failure and the existing
entry is not preserved. -/
theorem C4_open_counterexample :
    textDocument_didOpen (some ⟨none⟩) ["python"] "python" "file:///a.py"
        (str "x\n")
        [("file:///a.py", ⟨"file:///a.py", "python", 5, str "old\n"⟩)]
      = ([("file:///a.py", TextDocumentItem.new "file:///a.py" "python" (str "x\n"))],
         some (RpcOut.notify "textDocument/didOpen"
           (JVal.obj [("textDocument", JVal.obj [("textDocument",
             (TextDocumentItem.new "file:///a.py" "python" (str "x\n")).toJVal)])]))) := by
  simp [textDocument_didOpen, alive, TextDocumentItem.new, Docs.set]

/-- C4 (amended): open creates a new Document whose version equals 1 and
stores it under its uri; if the uri is already tracked, the existing entry is
silently overwritten by the fresh version-1 Document (no AlreadyOpen error). -/
theorem C4_open_creates_version_one (server : Option ServerProc)
    (serverCommands : List String) (languageId uri : String) (text : Text)
    (docs : Docs) (halive : alive server = true)
    (hlang : ¬(languageId = "" ∨ languageId ∉ serverCommands)) :
    (textDocument_didOpen server serverCommands languageId uri text docs).1.get? uri
      = some (TextDocumentItem.new uri languageId text)
  ∧ (TextDocumentItem.new uri languageId text).version = 1
  ∧ (textDocument_didOpen server serverCommands languageId uri text docs).2
      = some (RpcOut.notify "textDocument/didOpen"
          (JVal.obj [("textDocument", JVal.obj [("textDocument",
            (TextDocumentItem.new uri languageId text).toJVal)])])) := by
  refine ⟨?_, rfl, ?_⟩
  · simp [textDocument_didOpen, halive, hlang, get_set_self]
  · simp [textDocument_didOpen, halive, hlang]

/-- Witness for C4: opening over an existing version-5 entry leaves a
version-1 entry. -/
theorem C4_open_creates_version_one_witness :
    (textDocument_didOpen (some ⟨none⟩) ["python"] "python" "file:///a.py"
        (str "x\n")
        [("file:///a.py", ⟨"file:///a.py", "python", 5, str "old\n"⟩)]).1.get?
        "file:///a.py"
      = some (TextDocumentItem.new "file:///a.py" "python" (str "x\n"))
  ∧ (TextDocumentItem.new "file:///a.py" "python" (str "x\n")).version = 1 := by
  have h := C4_open_creates_version_one (some ⟨none⟩) ["python"] "python"
    "file:///a.py" (str "x\n")
    [("file:///a.py", ⟨"file:///a.py", "python", 5, str "old\n"⟩)]
    rfl (by simp)
  exact ⟨h.1, h.2.1⟩

/-- C9: when the current buffer's uri is not tracked, textDocument_didChange
returns without sending any didChange notification and leaves the document
table entirely unchanged. -/
theorem C9_didChange_untracked_noop (server : Option ServerProc) (docs : Docs)
    (uri : String) (newText : Text) (h : docs.get? uri = none) :
    textDocument_didChange server docs uri newText = (docs, none) := by
  by_cases ha : alive server
  · simp [textDocument_didChange, ha, h]
  · simp [textDocument_didChange, ha]

/-- Witness for C9: an untracked uri on a live server leads to a no-op. -/
theorem C9_didChange_untracked_noop_witness :
    textDocument_didChange (some ⟨none⟩) [] "file:///a.py" (str "x\n")
      = ([], none) :=
  C9_didChange_untracked_noop (some ⟨none⟩) [] "file:///a.py" (str "x\n") rfl

/-- C10: every user-invocable operation that would send a protocol message
first checks alive(), and when the server subprocess is absent or has exited
it returns immediately: no rpc call or notify is issued and the document table
is not mutated; textDocument_completion additionally returns the empty list. -/
theorem C10_not_alive_guard (server : Option ServerProc) (docs : Docs)
    (pid : Int) (rootPath : String) (pathToURI : String → String)
    (uri : String) (line character : Int) (newName : Option String)
    (inputResult : String) (query : Option String) (serverResult : List JVal)
    (h : alive server = false) :
    initRequest server docs pid rootPath pathToURI = (docs, none)
  ∧ textDocument_hover server docs uri line character = (docs, none)
  ∧ textDocument_definition server docs uri line character = (docs, none)
  ∧ textDocument_rename server docs uri line character newName inputResult
      = (docs, none)
  ∧ textDocument_documentSymbol server docs uri = (docs, none)
  ∧ workspace_symbol server docs query = (docs, none)
  ∧ textDocument_didClose server docs uri = Except.ok (docs, none)
  ∧ textDocument_completion server docs uri line character serverResult
      = (docs, [], none)
  ∧ lcExit server docs = (docs, none) := by
  simp [initRequest, textDocument_hover, textDocument_definition,
        textDocument_rename, textDocument_documentSymbol, workspace_symbol,
        textDocument_didClose, textDocument_completion, lcExit, h]

/-- Witness for C10: with no server subprocess at all, every operation is a
guarded no-op. -/
theorem C10_not_alive_guard_witness :
    initRequest none [] 1 "/p" (fun s => s) = ([], none)
  ∧ textDocument_hover none [] "file:///a.py" 0 0 = ([], none)
  ∧ textDocument_definition none [] "file:///a.py" 0 0 = ([], none)
  ∧ textDocument_rename none [] "file:///a.py" 0 0 none "x" = ([], none)
  ∧ textDocument_documentSymbol none [] "file:///a.py" = ([], none)
  ∧ workspace_symbol none [] none = ([], none)
  ∧ textDocument_didClose none [] "file:///a.py" = Except.ok ([], none)
  ∧ textDocument_completion none [] "file:///a.py" 0 0 [] = ([], [], none)
  ∧ lcExit none [] = ([], none) :=
  C10_not_alive_guard none [] 1 "/p" (fun s => s) "file:///a.py" 0 0 none "x"
    none [] rfl

/-- The characterwise `('/' replaced by '_')` transform applied to a method
name, `message['method'].replace('/', '_')`. -/
def replaceSlashUnderscore (s : List Char) : List Char :=
  s.map (fun c => if c = '/' then '_' else c)

/-- What `handleRequestOrNotification` does on return: the handler ran to
completion, the handler raised and the exception was logged, or no handler
existed and a warning was logged. -/
inductive HandleOutcome where
  | handled
  | loggedException
  | warnedNoHandler
deriving DecidableEq, Repr

/-- An inbound server-initiated request or notification: a message carrying a
`method` field and its `params`. -/
structure InboundMsg where
  method : String
  params : JVal

/-- Embedding of `handleRequestOrNotification`: translate the method name
(`'/'` to `'_'`), look it up among the client's handler methods (`hasattr` /
`getattr`, modelled by the partial map `handlers`), run the handler inside a
bare try/except that logs any exception; warn when no handler exists.  The
`Except` in the result type is where a propagating Python exception would
live. -/
def handleRequestOrNotification
    (handlers : String → Option (JVal → Except PyErr Unit))
    (message : InboundMsg) : Except PyErr HandleOutcome :=
  let method : String := ⟨replaceSlashUnderscore message.method.data⟩
  match handlers method with
  | some h =>
      match h message.params with
      | Except.ok _ => Except.ok HandleOutcome.handled
      | Except.error _ => Except.ok HandleOutcome.loggedException
  | none => Except.ok HandleOutcome.warnedNoHandler

/-- C8: for every inbound method-bearing message, handleRequestOrNotification
returns normally (never propagates an exception): when a handler exists, a
raising handler leads to the exception being caught and logged; when no
handler exists, only a warning is logged. -/
theorem C8_handle_never_raises
    (handlers : String → Option (JVal → Except PyErr Unit))
    (message : InboundMsg) :
    (∃ a, handleRequestOrNotification handlers message = Except.ok a)
  ∧ (∀ h e, handlers ⟨replaceSlashUnderscore message.method.data⟩ = some h →
      h message.params = Except.error e →
      handleRequestOrNotification handlers message
        = Except.ok HandleOutcome.loggedException)
  ∧ (handlers ⟨replaceSlashUnderscore message.method.data⟩ = none →
      handleRequestOrNotification handlers message
        = Except.ok HandleOutcome.warnedNoHandler) := by
  refine ⟨?_, ?_, ?_⟩
  · rw [handleRequestOrNotification]
    cases hh : handlers ⟨replaceSlashUnderscore message.method.data⟩ with
    | none => exact ⟨HandleOutcome.warnedNoHandler, by simp [hh]⟩
    | some h =>
      cases hr : h message.params with
      | ok u => exact ⟨HandleOutcome.handled, by simp [hh, hr]⟩
      | error e => exact ⟨HandleOutcome.loggedException, by simp [hh, hr]⟩
  · intro h e hh hr
    rw [handleRequestOrNotification]
    simp [hh, hr]
  · intro hh
    rw [handleRequestOrNotification]
    simp [hh]

/-- Witness for C8: a handler that raises has its exception caught and
logged. -/
theorem C8_handle_never_raises_witness :
    handleRequestOrNotification
      (fun m => if m = "textDocument_publishDiagnostics"
        then some (fun _ => Except.error (PyErr.exc "boom")) else none)
      ⟨"textDocument/publishDiagnostics", JVal.null⟩
      = Except.ok HandleOutcome.loggedException :=
  (C8_handle_never_raises
      (fun m => if m = "textDocument_publishDiagnostics"
        then some (fun _ => Except.error (PyErr.exc "boom")) else none)
      ⟨"textDocument/publishDiagnostics", JVal.null⟩).2.1
    (fun _ => Except.error (PyErr.exc "boom")) (PyErr.exc "boom")
    (if_pos (by decide)) rfl

/-- Modelled from the spec: the Message Correlator's state (`RPC.py` is not
available) — a monotonically increasing id counter starting at 1, the mapping
from pending request id to callback (callbacks are modelled opaquely by a
numeric tag), and whether the transport has been torn down. -/
structure RPCState where
  mid : Nat
  queue : List (Nat × Nat)
  closed : Bool
deriving DecidableEq, Repr

/-- The Correlator's initial state: counter at 1, nothing pending. -/
def RPCState.init : RPCState := ⟨1, [], false⟩

/-- Modelled from the spec: `call(method, params, callback)` allocates the
next id, stores the pending callback and returns the id; it fails with
TransportClosed (returning no id and registering nothing) once the channel is
closed. -/
def RPCState.call (st : RPCState) (cb : Nat) : RPCState × Option Nat :=
  if st.closed then (st, none)
  else (⟨st.mid + 1, st.queue ++ [(st.mid, cb)], false⟩, some st.mid)

/-- Pop the pending entry for a request id: the callback and the remaining
queue, or none when the id is not pending. -/
def popPending : List (Nat × Nat) → Nat → Option (Nat × List (Nat × Nat))
  | [], _ => none
  | (k, cb) :: rest, id =>
      if k = id then some (cb, rest)
      else match popPending rest id with
        | some (c, r) => some (c, (k, cb) :: r)
        | none => none

/-- One inbound event driving the Correlator: a caller issuing `call`, a
response frame arriving for a request id, or transport teardown. -/
inductive RPCStep where
  | call (cb : Nat)
  | response (id : Nat)
  | close
deriving DecidableEq, Repr

/-- The output of one Correlator step: the new state, the callback
invocations (requestId, callback) performed by the step, and the request id
returned when the step was a `call`. -/
structure StepOut where
  state : RPCState
  invoked : List (Nat × Nat)
  returned : Option Nat
deriving DecidableEq, Repr

/-- Modelled from the spec: one Correlator transition.  A response whose id is
pending pops the entry and invokes its callback exactly then; a stray response
goes to the error handler (no invocation); closing abandons all pending calls
(their callbacks are never invoked) and blocks every later event. -/
def RPCState.step (st : RPCState) : RPCStep → StepOut
  | RPCStep.call cb =>
      let r := st.call cb
      ⟨r.1, [], r.2⟩
  | RPCStep.response id =>
      if st.closed then ⟨st, [], none⟩
      else match popPending st.queue id with
        | some (cb, rest) => ⟨⟨st.mid, rest, st.closed⟩, [(id, cb)], none⟩
        | none => ⟨st, [], none⟩
  | RPCStep.close => ⟨⟨st.mid, [], true⟩, [], none⟩

/-- Run the Correlator over a sequence of events, collecting the final state,
all callback invocations and all request ids handed out. -/
def RPCState.run (st : RPCState) : List RPCStep → RPCState × List (Nat × Nat) × List Nat
  | [] => (st, [], [])
  | e :: es =>
      let o := st.step e
      let r := o.state.run es
      (r.1, o.invoked ++ r.2.1, o.returned.toList ++ r.2.2)

theorem run_ids_general (steps : List RPCStep) :
    ∀ st : RPCState, ∃ n,
      (st.run steps).2.2 = (if st.closed then [] else List.range' st.mid n)
    ∧ (st.run steps).1.mid = st.mid + (if st.closed then 0 else n) := by
  induction steps with
  | nil =>
    intro st
    exact ⟨0, by simp [RPCState.run], by simp [RPCState.run]⟩
  | cons e es ih =>
    intro st
    cases e with
    | call cb =>
      by_cases hc : st.closed
      · obtain ⟨n, h1, h2⟩ := ih st
        refine ⟨n, ?_, ?_⟩
        · simp [RPCState.run, RPCState.step, RPCState.call, hc, h1]
        · simpa [RPCState.run, RPCState.step, RPCState.call, hc] using h2
      · obtain ⟨n, h1, h2⟩ := ih ⟨st.mid + 1, st.queue ++ [(st.mid, cb)], false⟩
        simp at h1 h2
        refine ⟨n + 1, ?_, ?_⟩
        · simp [RPCState.run, RPCState.step, RPCState.call, hc, h1]
          rfl
        · simp [RPCState.run, RPCState.step, RPCState.call, hc, h2]
          omega
    | response id =>
      by_cases hc : st.closed
      · obtain ⟨n, h1, h2⟩ := ih st
        refine ⟨n, ?_, ?_⟩
        · simpa [RPCState.run, RPCState.step, hc] using h1
        · simpa [RPCState.run, RPCState.step, hc] using h2
      · cases hp : popPending st.queue id with
        | none =>
          obtain ⟨n, h1, h2⟩ := ih st
          refine ⟨n, ?_, ?_⟩
          · simpa [RPCState.run, RPCState.step, hc, hp] using h1
          · simpa [RPCState.run, RPCState.step, hc, hp] using h2
        | some pr =>
          obtain ⟨n, h1, h2⟩ := ih ⟨st.mid, pr.2, st.closed⟩
          simp [hc] at h1 h2
          refine ⟨n, ?_, ?_⟩
          · simp [RPCState.run, RPCState.step, hc, hp, h1]
          · simp [RPCState.run, RPCState.step, hc, hp, h2]
    | close =>
      obtain ⟨n, h1, h2⟩ := ih ⟨st.mid, [], true⟩
      simp at h1 h2
      refine ⟨0, ?_, ?_⟩
      · simp [RPCState.run, RPCState.step, h1]
      · simp [RPCState.run, RPCState.step, h2]

/-- C6: on a single Correlator instance, successive call() invocations return
request ids assigned in strictly increasing order starting at 1 (the ids
handed out over any event sequence from the initial state are exactly
1, 2, ..., n), no id is ever returned twice, and the counter is never reset —
in particular removing a pending entry on response never changes it. -/
theorem C6_ids_strictly_increasing (steps : List RPCStep) :
    (∃ n, (RPCState.init.run steps).2.2 = List.range' 1 n
        ∧ (RPCState.init.run steps).1.mid = 1 + n)
  ∧ ((RPCState.init.run steps).2.2).Pairwise (· < ·)
  ∧ ((RPCState.init.run steps).2.2).Nodup
  ∧ ∀ (st : RPCState) (id : Nat),
      (st.step (RPCStep.response id)).state.mid = st.mid := by
  obtain ⟨n, h1, h2⟩ := run_ids_general steps RPCState.init
  simp [RPCState.init] at h1 h2
  refine ⟨⟨n, h1, h2⟩, ?_, ?_, ?_⟩
  · rw [show (RPCState.init.run steps).2.2 = List.range' 1 n from h1]
    simp [List.pairwise_lt_range']
  · rw [show (RPCState.init.run steps).2.2 = List.range' 1 n from h1]
    simp [List.nodup_range']
  · intro st id
    cases hc : st.closed
    · cases hp : popPending st.queue id with
      | none => simp [RPCState.step, hc, hp]
      | some pr => simp [RPCState.step, hc, hp]
    · simp [RPCState.step, hc]

theorem popPending_spec (q : List (Nat × Nat)) (id cb : Nat)
    (rest : List (Nat × Nat)) (h : popPending q id = some (cb, rest)) :
    ∃ q1 q2, q = q1 ++ (id, cb) :: q2 ∧ rest = q1 ++ q2 := by
  induction q generalizing rest with
  | nil => simp [popPending] at h
  | cons kv q ih =>
    obtain ⟨k, c⟩ := kv
    by_cases hk : k = id
    · subst hk
      simp [popPending] at h
      exact ⟨[], q, by simp [h.1], by simp [h.2]⟩
    · rw [popPending, if_neg hk] at h
      cases hp : popPending q id with
      | none => rw [hp] at h; simp at h
      | some pr =>
        obtain ⟨c2, r2⟩ := pr
        rw [hp] at h
        simp at h
        obtain ⟨q1, q2, hq, hr⟩ := ih r2 (by rw [hp, h.1])
        exact ⟨(k, c) :: q1, q2, by simp [hq], by simp [← h.2, hr]⟩

theorem run_invoked_empty_of_closed (steps : List RPCStep) :
    ∀ st : RPCState, st.closed = true → (st.run steps).2.1 = [] := by
  induction steps with
  | nil =>
    intro st h
    simp [RPCState.run]
  | cons e es ih =>
    intro st h
    cases e with
    | call cb => simpa [RPCState.run, RPCState.step, RPCState.call, h] using ih st h
    | response id => simpa [RPCState.run, RPCState.step, h] using ih st h
    | close => simpa [RPCState.run, RPCState.step] using ih ⟨st.mid, [], true⟩ rfl

/-- The Correlator's internal invariant: pending ids are pairwise distinct and
all below the id counter. -/
def RPCInv (st : RPCState) : Prop :=
  (st.queue.map Prod.fst).Nodup ∧ ∀ i ∈ st.queue.map Prod.fst, i < st.mid


theorem run_invoked_nodup (steps : List RPCStep) :
    ∀ st : RPCState, RPCInv st →
      ((st.run steps).2.1.map Prod.fst).Nodup
    ∧ ∀ i ∈ (st.run steps).2.1.map Prod.fst,
        i ∈ st.queue.map Prod.fst ∨ st.mid ≤ i := by
  induction steps with
  | nil =>
    intro st hInv
    simp [RPCState.run]
  | cons e es ih =>
    intro st hInv
    obtain ⟨hn, hb⟩ := hInv
    cases e with
    | call cb =>
      by_cases hc : st.closed
      · obtain ⟨h1, h2⟩ := ih st ⟨hn, hb⟩
        refine ⟨?_, ?_⟩
        · simpa [RPCState.run, RPCState.step, RPCState.call, hc] using h1
        · intro i hi
          exact h2 i (by simpa [RPCState.run, RPCState.step, RPCState.call, hc] using hi)
      · have hInv2 : RPCInv ⟨st.mid + 1, st.queue ++ [(st.mid, cb)], false⟩ := by
          constructor
          · show ((st.queue ++ [(st.mid, cb)]).map Prod.fst).Nodup
            rw [List.map_append, List.nodup_append]
            refine ⟨hn, by simp, ?_⟩
            intro a ha hb2
            simp at hb2
            subst hb2
            exact absurd (hb _ ha) (lt_irrefl _)
          · intro i hi
            show i < st.mid + 1
            rw [List.map_append] at hi
            rcases List.mem_append.mp hi with hi | hi
            · exact Nat.lt_succ_of_lt (hb i hi)
            · simp at hi
              omega
        obtain ⟨h1, h2⟩ := ih _ hInv2
        refine ⟨?_, ?_⟩
        · simpa [RPCState.run, RPCState.step, RPCState.call, hc] using h1
        · intro i hi
          have hi2 := h2 i (by simpa [RPCState.run, RPCState.step, RPCState.call, hc] using hi)
          rcases hi2 with hi2 | hi2
          · rw [show (⟨st.mid + 1, st.queue ++ [(st.mid, cb)], false⟩ : RPCState).queue
                = st.queue ++ [(st.mid, cb)] from rfl, List.map_append] at hi2
            rcases List.mem_append.mp hi2 with hi2 | hi2
            · exact Or.inl hi2
            · simp at hi2
              omega
          · have : st.mid + 1 ≤ i := hi2
            omega
    | response id =>
      by_cases hc : st.closed
      · obtain ⟨h1, h2⟩ := ih st ⟨hn, hb⟩
        refine ⟨?_, ?_⟩
        · simpa [RPCState.run, RPCState.step, hc] using h1
        · intro i hi
          exact h2 i (by simpa [RPCState.run, RPCState.step, hc] using hi)
      · cases hp : popPending st.queue id with
        | none =>
          obtain ⟨h1, h2⟩ := ih st ⟨hn, hb⟩
          refine ⟨?_, ?_⟩
          · simpa [RPCState.run, RPCState.step, hc, hp] using h1
          · intro i hi
            exact h2 i (by simpa [RPCState.run, RPCState.step, hc, hp] using hi)
        | some pr =>
          obtain ⟨cb, rest⟩ := pr
          obtain ⟨q1, q2, hq, hr⟩ := popPending_spec st.queue id cb rest hp
          rw [hq, List.map_append, List.map_cons] at hn
          have hparts := List.nodup_append.mp hn
          have hid_q1 : id ∉ q1.map Prod.fst := fun hmem =>
            hparts.2.2 hmem (List.mem_cons_self id _)
          have hid_q2 : id ∉ q2.map Prod.fst := by
            have h2c := hparts.2.1
            rw [List.nodup_cons] at h2c
            exact h2c.1
          have hrest_nodup : (rest.map Prod.fst).Nodup := by
            rw [hr, List.map_append, List.nodup_append]
            have h2c := hparts.2.1
            rw [List.nodup_cons] at h2c
            refine ⟨hparts.1, h2c.2, ?_⟩
            intro a ha hb2
            exact hparts.2.2 ha (List.mem_cons_of_mem id hb2)
          have hid_notin_rest : id ∉ rest.map Prod.fst := by
            rw [hr, List.map_append]
            intro hmem
            rcases List.mem_append.mp hmem with h | h
            · exact hid_q1 h
            · exact hid_q2 h
          have hrest_sub : ∀ i ∈ rest.map Prod.fst, i ∈ st.queue.map Prod.fst := by
            intro i hi
            rw [hq, List.map_append, List.map_cons]
            rw [hr, List.map_append] at hi
            rcases List.mem_append.mp hi with h | h
            · exact List.mem_append.mpr (Or.inl h)
            · exact List.mem_append.mpr (Or.inr (List.mem_cons_of_mem id h))
          have hid_mem : id ∈ st.queue.map Prod.fst := by
            rw [hq, List.map_append, List.map_cons]
            exact List.mem_append.mpr (Or.inr (List.mem_cons_self id _))
          have hid_lt : id < st.mid := hb id hid_mem
          have hInv2 : RPCInv ⟨st.mid, rest, st.closed⟩ := by
            refine ⟨hrest_nodup, ?_⟩
            intro i hi
            show i < st.mid
            exact hb i (hrest_sub i hi)
          obtain ⟨h1, h2⟩ := ih _ hInv2
          refine ⟨?_, ?_⟩
          · rw [show ((st.run (RPCStep.response id :: es)).2.1.map Prod.fst)
                = id :: ((RPCState.run ⟨st.mid, rest, st.closed⟩ es).2.1.map Prod.fst) by
                simp [RPCState.run, RPCState.step, hc, hp]]
            rw [List.nodup_cons]
            refine ⟨?_, h1⟩
            intro hmem
            rcases h2 id hmem with hmem2 | hge
            · exact hid_notin_rest hmem2
            · have : st.mid ≤ id := hge
              omega
          · intro i hi
            have hi2 : i = id ∨ i ∈ (RPCState.run ⟨st.mid, rest, st.closed⟩ es).2.1.map Prod.fst := by
              simpa [RPCState.run, RPCState.step, hc, hp] using hi
            rcases hi2 with rfl | hi2
            · exact Or.inl hid_mem
            · rcases h2 i hi2 with hmem2 | hge
              · exact Or.inl (hrest_sub i hmem2)
              · exact Or.inr hge
    | close =>
      have hInv2 : RPCInv ⟨st.mid, [], true⟩ := ⟨by simp, by simp⟩
      obtain ⟨h1, h2⟩ := ih _ hInv2
      refine ⟨?_, ?_⟩
      · simpa [RPCState.run, RPCState.step] using h1
      · intro i hi
        have hi2 := h2 i (by simpa [RPCState.run, RPCState.step] using hi)
        rcases hi2 with hmem2 | hge
        · simp at hmem2
        · exact Or.inr hge

/-- C7: over any event sequence, each pending call's callback is invoked at
most once (the invoked request ids are pairwise distinct); a response whose id
is pending invokes the callback exactly then, removing the id; and once the
transport is closed no callback is ever invoked again. -/
theorem C7_at_most_once_invocation (steps : List RPCStep) :
    ((RPCState.init.run steps).2.1.map Prod.fst).Nodup
  ∧ (∀ (st : RPCState) (es : List RPCStep), st.closed = true →
      (st.run es).2.1 = [])
  ∧ ∀ (st : RPCState) (id cb : Nat) (rest : List (Nat × Nat)),
      st.closed = false → popPending st.queue id = some (cb, rest) →
      st.step (RPCStep.response id)
        = ⟨⟨st.mid, rest, false⟩, [(id, cb)], none⟩ := by
  refine ⟨?_, ?_, ?_⟩
  · exact (run_invoked_nodup steps RPCState.init ⟨by simp [RPCState.init], by simp [RPCState.init]⟩).1
  · intro st es h
    exact run_invoked_empty_of_closed es st h
  · intro st id cb rest hc hp
    simp [RPCState.step, hc, hp]

/-- Witness for C7: with id 1 pending (callback tag 7), the matching response
invokes the callback exactly once and removes the id. -/
theorem C7_at_most_once_invocation_witness :
    RPCState.step ⟨2, [(1, 7)], false⟩ (RPCStep.response 1)
      = ⟨⟨2, [], false⟩, [(1, 7)], none⟩ :=
  (C7_at_most_once_invocation []).2.2 ⟨2, [(1, 7)], false⟩ 1 7 [] rfl rfl
